import Mathlib

/-!
Shallow embedding of the quantum-farming decision-support core:
the yield predictor (src/quantum/algorithms/yield_predictor.py), the
irrigation allocator (src/quantum/algorithms/irrigation_optimizer.py),
the pest-risk classifier (src/quantum/algorithms/pest_forecaster.py)
and the backend helpers (src/quantum/utils/quantum_backend.py).
Real numbers are modelled as rationals; rotation angles are recorded as
rational multiples of pi; a simulation-backend failure is modelled as
`none`; IEEE non-finite values arising from zero-denominator divisions
are modelled as `none` as well.
-/

/-- A measurement outcome string; `true` is the character 1. -/
abbrev Bitstring := List Bool

/-- An outcome distribution: association list from bitstring to count,
in Python dict iteration (insertion) order. -/
abbrev Counts := List (Bitstring × ℕ)

/-- `sum(counts.values())`. -/
def totalShots (counts : Counts) : ℕ :=
  (counts.map Prod.snd).sum

/-- `int(bitstring, 2)`: the unsigned binary value, most significant
character first. -/
def bitsToNat : Bitstring → ℕ
  | [] => 0
  | b :: rest => (if b then 1 else 0) * 2 ^ rest.length + bitsToNat rest

/-- The length-`n` bitstring of `v % 2^n`, most significant first. -/
def natToBits : ℕ → ℕ → Bitstring
  | 0, _ => []
  | n + 1, v => decide (v / 2 ^ n % 2 = 1) :: natToBits n v

/-- A circuit operation; angles are stored as rational multiples of pi. -/
inductive Gate
  | h (q : ℕ)
  | rx (angle : ℚ) (q : ℕ)
  | ry (angle : ℚ) (q : ℕ)
  | rz (angle : ℚ) (q : ℕ)
  | rzz (angle : ℚ) (q1 q2 : ℕ)
  | cx (q1 q2 : ℕ)
  | cz (q1 q2 : ℕ)
  | barrier
  | measureAll
deriving DecidableEq, Repr

/-- A circuit specification: qubit count plus the ordered operation list. -/
structure CircuitSpec where
  numQubits : ℕ
  gates : List Gate
deriving DecidableEq, Repr

/-- Decidable equality for `Except`, used to evaluate embedded calls on
concrete inputs. -/
instance exceptDecEq {ε α : Type} [DecidableEq ε] [DecidableEq α] :
    DecidableEq (Except ε α) := fun a b =>
  match a, b with
  | Except.error e1, Except.error e2 =>
      if h : e1 = e2 then isTrue (by rw [h])
      else isFalse (by intro hc; cases hc; exact h rfl)
  | Except.error _, Except.ok _ => isFalse (by intro hc; cases hc)
  | Except.ok _, Except.error _ => isFalse (by intro hc; cases hc)
  | Except.ok v1, Except.ok v2 =>
      if h : v1 = v2 then isTrue (by rw [h])
      else isFalse (by intro hc; cases hc; exact h rfl)

/-! ## Yield predictor (yield_predictor.py) -/

/-- The expectation aggregation of `_execute_circuit` (lines 79-88):
each outcome is read as an unsigned integer, normalized by
`2 ** num_qubits - 1`, and shot-weight averaged. -/
def expectationValue (numQubits : ℕ) (counts : Counts) : ℚ :=
  (counts.map (fun p =>
    (bitsToNat p.1 : ℚ) / (2 ^ numQubits - 1) * p.2 / totalShots counts)).sum

/-- `_execute_circuit` (lines 68-92): the whole body is wrapped in
`try/except`, and any exception yields the fallback `0.5`.  A backend
failure is modelled as `none`.  With a successful backend result, an
empty counts dict makes the loop body never run (result `0.0`), while a
nonempty dict with zero total shots or zero qubits raises a
`ZeroDivisionError` inside the loop, caught into `0.5`. -/
def executeCircuit (numQubits : ℕ) (result : Option Counts) : ℚ :=
  match result with
  | none => 1 / 2
  | some counts =>
      if counts.isEmpty then 0
      else if totalShots counts = 0 ∨ numQubits = 0 then 1 / 2
      else expectationValue numQubits counts

/-- The Expectation Estimator exactly as worded by the spec (section 4.3):
interpret each outcome as an unsigned binary integer, normalize by
`2^qubit_count - 1`, and take the shot-count-weighted average. -/
def specEstimate (numQubits : ℕ) (counts : Counts) : ℚ :=
  ((counts.map (fun p => (bitsToNat p.1 : ℚ) * p.2)).sum)
    / ((2 ^ numQubits - 1) * totalShots counts)

/-- Two-argument minimum, written out so that it evaluates by kernel
reduction. -/
def rmin (a b : ℚ) : ℚ := if a ≤ b then a else b

/-- Two-argument maximum, written out so that it evaluates by kernel
reduction. -/
def rmax (a b : ℚ) : ℚ := if a ≤ b then b else a

/-- `np.min` over a nonempty list (the empty case is unreachable in the
source: `np.min([])` raises). -/
def listMin : List ℚ → ℚ
  | [] => 0
  | x :: xs => xs.foldl rmin x

/-- `np.max` over a nonempty list. -/
def listMax : List ℚ → ℚ
  | [] => 0
  | x :: xs => xs.foldl rmax x

/-- One entry of `(y - y_min) / (y_max - y_min)` (fit, line 118).
When `y_max - y_min` is zero the IEEE quotient is non-finite (NaN for
the reachable `0/0` case); that is modelled as `none`. -/
def normTarget (yMin yMax t : ℚ) : Option ℚ :=
  if yMax - yMin = 0 then none else some ((t - yMin) / (yMax - yMin))

/-- The normalized target vector computed inside `fit` (lines 116-118). -/
def fitNormalizedTargets (y : List ℚ) : List (Option ℚ) :=
  y.map (normTarget (listMin y) (listMax y))

/-- Trained per-model state stored by `fit`: target range and the
optimizer's returned parameter vector (`self.parameters`). -/
structure TrainedState where
  yMin : ℚ
  yMax : ℚ
  parameters : Option (List ℚ)
deriving DecidableEq, Repr

/-- `fit` (lines 108-136): records `y_min`, `y_max` and unconditionally
stores the optimizer's result as the parameters.  The optimizer
(`scipy.optimize.minimize`, an external dependency) is abstracted by its
returned vector `optResult`. -/
def fit (y : List ℚ) (optResult : List ℚ) : TrainedState :=
  { yMin := listMin y, yMax := listMax y, parameters := some optResult }

/-- NaN-propagating addition used to model `total_cost += cost` when a
summand is non-finite. -/
def nanAdd : Option ℚ → Option ℚ → Option ℚ
  | some a, some b => some (a + b)
  | _, _ => none

/-- `_cost_function` (lines 94-106): per-row squared error against the
(possibly NaN) normalized target, averaged over the rows.  The circuit
simulation for row `i` is abstracted by `results[i]` (`none` models a
backend exception caught inside `_execute_circuit`).  An empty training
set would raise `ZeroDivisionError` (modelled `none`). -/
def costFunction (numQubits : ℕ) (results : List (Option Counts))
    (targets : List (Option ℚ)) : Option ℚ :=
  if results.length = 0 then none
  else
    ((List.zipWith
        (fun r t => t.map (fun yt => (executeCircuit numQubits r - yt) ^ 2))
        results targets).foldl nanAdd (some 0)).map
      (fun tot => tot / (results.length : ℚ))

/-- `predict` (lines 138-154): raises when untrained, otherwise maps each
row's expectation through `prediction * (y_max - y_min) + y_min`.  The
oracle run for each row is abstracted by its `Option Counts` result. -/
def predict (numQubits : ℕ) (st : TrainedState)
    (results : List (Option Counts)) : Except String (List ℚ) :=
  match st.parameters with
  | none => Except.error "Model must be trained first!"
  | some _ =>
      Except.ok (results.map (fun r =>
        executeCircuit numQubits r * (st.yMax - st.yMin) + st.yMin))

/-! ## Backend helpers (quantum_backend.py) -/

/-- The configuration dictionary returned by `get_quantum_backend`
(lines 111-117); the backend handle itself is an external simulator
object and carries no configuration of its own. -/
structure BackendConfig where
  shots : ℕ
  optimizationLevel : ℕ
  seedSimulator : ℕ
deriving DecidableEq, Repr

/-- `get_quantum_backend` (lines 5-117): every branch of the
backend-selection chain ends in a simulator handle, and the returned
dictionary is always `{backend, shots, optimization_level: 1,
seed_simulator: 42}`. -/
def getQuantumBackend (backendType : String) (shots : ℕ) : BackendConfig :=
  { shots := shots, optimizationLevel := 1, seedSimulator := 42 }

/-- Modelled from the spec: the Stochastic Oracle of section 4.1 (the Aer
simulator backend, an external dependency not under src/).  It must be a
deterministic function of `(spec, shots, seed)` returning a distribution
over length-`numQubits` strings whose counts sum to `shots`; this model
places all shots on the single outcome selected by the seed. -/
def oracleRun (spec : CircuitSpec) (shots : ℕ) (seed : ℕ) : Counts :=
  [(natToBits spec.numQubits (seed % 2 ^ spec.numQubits), shots)]

/-- `run_circuit` (lines 119-134): transpiles and calls
`backend.run(transpiled_circuit, shots=shots)`.  No `seed_simulator` is
forwarded, so the sampling seed is the simulator's fresh entropy,
modelled by the extra `ambientEntropy` argument. -/
def runCircuit (circuit : CircuitSpec) (cfg : BackendConfig)
    (ambientEntropy : ℕ) : Counts :=
  oracleRun circuit cfg.shots ambientEntropy

/-! ## Irrigation allocator (irrigation_optimizer.py) -/

/-- The settings read in `__init__` (lines 9-13); source defaults are
`n_qubits = 5`, `circuit_depth = 2`, `shots = 1024`. -/
structure OptimizerSettings where
  nQubits : ℕ
  circuitDepth : ℕ
  shots : ℕ
deriving DecidableEq, Repr

/-- One irrigation zone; `optimize` only reads its `requirement`. -/
structure Zone where
  requirement : ℚ
deriving DecidableEq, Repr

/-- `_create_qaoa_circuit` (lines 15-40): Hadamards on every qubit, then
`depth` layers of `rzz(pi/2)` on adjacent pairs followed by `rx(pi/3)`
on every qubit, then `measure_all`. -/
def createQaoaCircuit (depth nQubits : ℕ) : CircuitSpec :=
  { numQubits := nQubits,
    gates :=
      (List.range nQubits).map Gate.h
        ++ [Gate.barrier]
        ++ (List.range depth).bind (fun _ =>
              ((List.range (nQubits - 1)).map (fun i => Gate.rzz (1/2) i (i + 1)))
                ++ [Gate.barrier]
                ++ ((List.range nQubits).map (Gate.rx (1/3)))
                ++ [Gate.barrier])
        ++ [Gate.measureAll] }

/-- The comparison step of Python's `max(counts, key=counts.get)`: the
current best is replaced only on a strictly larger count, so the first
maximum in iteration order survives. -/
def pickMax (q r : Bitstring × ℕ) : Bitstring × ℕ :=
  if r.2 > q.2 then r else q

/-- `max(counts, key=counts.get)` over the distribution in iteration
order; `none` models the `ValueError` of `max` on an empty dict. -/
def maxByCount : Counts → Option (Bitstring × ℕ)
  | [] => none
  | p :: rest => some (rest.foldl pickMax p)

/-- `optimize` (lines 42-68): builds the circuit with `len(zone_data)`
qubits, runs the simulator (abstracted by `oracle`), takes the
most-frequent outcome and decodes it positionally with `zip`, giving
`requirement * 0.8` for a 1 bit and `0` otherwise. -/
def optimize (cfg : OptimizerSettings) (oracle : CircuitSpec → ℕ → Counts)
    (zoneData : List Zone) :
    Except String (List ℚ × Counts × CircuitSpec) :=
  let circuit := createQaoaCircuit cfg.circuitDepth zoneData.length
  let counts := oracle circuit cfg.shots
  match maxByCount counts with
  | none => Except.error "max() arg is an empty sequence"
  | some best =>
      Except.ok
        ((zoneData.zip best.1).map
          (fun zb => if zb.2 then zb.1.requirement * (4/5) else 0),
         counts, circuit)

/-! ## Pest-risk classifier (pest_forecaster.py) -/

/-- A Python value reaching the `crop_stage` parameter of
`_generate_recommendations`: a string, or a number (as happens in
`forecast`, which passes `features[-1]`). -/
inductive PyVal
  | str (s : String)
  | num (q : ℚ)
deriving DecidableEq, Repr

/-- The score-tier rule set for `risk_score > 0.7` (lines 39-44). -/
def highRiskRecs : List String :=
  ["**Action Required**: Immediate field inspection recommended.",
   "Deploy pheromone traps in high-risk zones.",
   "Consider targeted organic pesticide application."]

/-- The score-tier rule set for `0.4 < risk_score <= 0.7` (lines 45-50). -/
def mediumRiskRecs : List String :=
  ["**Warning**: Increase monitoring frequency to daily.",
   "Focus on vulnerable crop sections (young leaves).",
   "Prepare mitigation resources."]

/-- The score-tier rule set for `risk_score <= 0.4` (lines 51-55). -/
def lowRiskRecs : List String :=
  ["**All Clear**: Conditions are favorable. Continue standard monitoring.",
   "Maintain beneficial insect habitats to support natural pest control."]

/-- The tier selection of `_generate_recommendations` (lines 38-55). -/
def tierRecs (riskScore : ℚ) : List String :=
  if riskScore > 7/10 then highRiskRecs
  else if riskScore > 2/5 then mediumRiskRecs
  else lowRiskRecs

/-- The `stage_recs` lookup table (lines 58-62); keys are strings, so a
numeric lookup always misses. -/
def stageRecs : String → Option String
  | "Germination" => some "Protect seedlings with row covers if high risk is detected."
  | "Flowering" => some "Be cautious with any treatments to protect vital pollinators."
  | "Maturation" => some "Ensure proper storage plans to prevent post-harvest infestation."
  | _ => none

/-- `_generate_recommendations` (lines 36-65): the score tier followed by
the optional stage addendum (`if crop_stage in stage_recs`).  A numeric
`crop_stage` is never a key of the string-keyed table. -/
def generateRecommendations (riskScore : ℚ) (cropStage : PyVal) : List String :=
  tierRecs riskScore ++
    (match cropStage with
     | PyVal.str s => (stageRecs s).toList
     | PyVal.num _ => [])

/-- `_create_feature_map_circuit` (lines 14-34): `ry(f*pi)` and
`rz(f*pi*0.5)` per feature, a `cx` chain over adjacent qubits, then
`measure_all`. -/
def createFeatureMapCircuit (nQubits : ℕ) (features : List ℚ) : CircuitSpec :=
  { numQubits := nQubits,
    gates :=
      features.enum.bind (fun p => [Gate.ry p.2 p.1, Gate.rz (p.2 / 2) p.1])
        ++ (if 1 < nQubits then
              Gate.barrier :: (List.range (nQubits - 1)).map (fun i => Gate.cx i (i + 1))
            else [])
        ++ [Gate.measureAll] }

/-- The `risk_value` accumulation of `forecast` (lines 88-93): the number
of 1 bits of each outcome over `n_qubits`, weighted by its count. -/
def riskValue (nQubits : ℕ) (counts : Counts) : ℚ :=
  (counts.map (fun p => ((p.1.count true : ℚ) / nQubits) * p.2)).sum

/-- The risk score exactly as worded by the spec (section 4.7): the
shot-weighted average of the fraction of 1 bits of each sampled
outcome. -/
def specRiskScore (counts : Counts) : ℚ :=
  (counts.map (fun p => ((p.1.count true : ℚ) / p.1.length) * p.2)).sum
    / totalShots counts

/-- The threshold classification of `forecast` (lines 97-103). -/
def riskLevel (riskScore : ℚ) : String :=
  if riskScore > 13/20 then "🔴 High Risk"
  else if riskScore > 7/20 then "🟡 Medium Risk"
  else "🟢 Low Risk"

/-- `forecast` (lines 67-107): checks `len(features) == 3`, normalizes by
`[45, 100, 100]`, runs the circuit (abstracted by `oracle`), aggregates
the 1-bit density into `risk_score`, thresholds it, and generates
recommendations passing `features[-1]` — the raw last feature, a number,
not a crop-stage string — as `crop_stage`.  An empty distribution makes
`risk_value / total_shots` raise `ZeroDivisionError`. -/
def forecast (shots : ℕ) (oracle : CircuitSpec → ℕ → Counts)
    (features : List ℚ) :
    Except String (ℚ × String × List String × CircuitSpec × Counts) :=
  if features.length ≠ 3 then
    Except.error "Expected 3 features"
  else
    let normalized := List.zipWith (fun f m => f / m) features [45, 100, 100]
    let circuit := createFeatureMapCircuit 3 normalized
    let counts := oracle circuit shots
    if totalShots counts = 0 then Except.error "division by zero"
    else
      let riskScore := riskValue 3 counts / totalShots counts
      Except.ok (riskScore, riskLevel riskScore,
        generateRecommendations riskScore (PyVal.num (features.getLastD 0)),
        circuit, counts)

/-- Concrete oracle used to instantiate theorems: all shots on the
all-ones outcome of the circuit's width.  It satisfies the oracle
contract (keys of length `numQubits`, counts summing to `shots`). -/
def demoOracle (circuit : CircuitSpec) (shots : ℕ) : Counts :=
  [(List.replicate circuit.numQubits true, shots)]

/-! ## Helper lemmas -/

lemma sum_map_div {α : Type} (l : List α) (f : α → ℚ) (d : ℚ) :
    (l.map (fun x => f x / d)).sum = (l.map f).sum / d := by
  induction l with
  | nil => simp
  | cons a t ih => simp [ih, add_div]

lemma totalShots_cast (counts : Counts) :
    ((totalShots counts : ℕ) : ℚ) = (counts.map (fun p => (p.2 : ℚ))).sum := by
  simp only [totalShots, Nat.cast_list_sum, List.map_map]
  rfl

lemma bitsToNat_lt (bs : Bitstring) : bitsToNat bs < 2 ^ bs.length := by
  induction bs with
  | nil => simp [bitsToNat]
  | cons b t ih =>
      simp only [bitsToNat, List.length_cons, pow_succ]
      cases b <;> simp <;> omega

lemma sum_weighted_le_total (counts : Counts) (w : Bitstring × ℕ → ℚ)
    (hw : ∀ p ∈ counts, w p ≤ 1) :
    (counts.map (fun p => w p * p.2)).sum ≤ ((totalShots counts : ℕ) : ℚ) := by
  rw [totalShots_cast]
  apply List.sum_le_sum
  intro p hp
  have h1 : w p * (p.2 : ℚ) ≤ 1 * (p.2 : ℚ) :=
    mul_le_mul_of_nonneg_right (hw p hp) (Nat.cast_nonneg _)
  simpa using h1

lemma sum_weighted_nonneg (counts : Counts) (w : Bitstring × ℕ → ℚ)
    (hw0 : ∀ p ∈ counts, 0 ≤ w p) :
    0 ≤ (counts.map (fun p => w p * p.2)).sum := by
  apply List.sum_nonneg
  intro x hx
  obtain ⟨p, hp, rfl⟩ := List.mem_map.mp hx
  exact mul_nonneg (hw0 p hp) (Nat.cast_nonneg _)

lemma expectationValue_eq_div (n : ℕ) (counts : Counts) :
    expectationValue n counts
      = (counts.map (fun p =>
          ((bitsToNat p.1 : ℚ) / (2 ^ n - 1)) * p.2)).sum / (totalShots counts : ℚ) := by
  unfold expectationValue
  exact sum_map_div counts _ _

lemma expectationValue_eq_specEstimate (n : ℕ) (counts : Counts) :
    expectationValue n counts = specEstimate n counts := by
  unfold expectationValue specEstimate
  have hfun : (fun p : Bitstring × ℕ =>
        (bitsToNat p.1 : ℚ) / (2 ^ n - 1) * p.2 / (totalShots counts : ℚ))
      = (fun p : Bitstring × ℕ =>
        ((bitsToNat p.1 : ℚ) * p.2) / ((2 ^ n - 1) * (totalShots counts : ℚ))) := by
    funext p
    rw [div_mul_eq_mul_div, div_div]
  rw [hfun, sum_map_div]

lemma bitsToNat_cast_le (n : ℕ) (bs : Bitstring) (hlen : bs.length ≤ n) :
    (bitsToNat bs : ℚ) ≤ 2 ^ n - 1 := by
  have h1 : bitsToNat bs < 2 ^ n :=
    lt_of_lt_of_le (bitsToNat_lt bs) (Nat.pow_le_pow_right (by norm_num) hlen)
  have h2 : bitsToNat bs + 1 ≤ 2 ^ n := h1
  have h3 : ((bitsToNat bs + 1 : ℕ) : ℚ) ≤ ((2 ^ n : ℕ) : ℚ) := by
    exact_mod_cast h2
  push_cast at h3
  linarith

lemma expectationValue_nonneg (n : ℕ) (counts : Counts) :
    0 ≤ expectationValue n counts := by
  rw [expectationValue_eq_div]
  apply div_nonneg _ (Nat.cast_nonneg _)
  apply sum_weighted_nonneg
  intro p hp
  apply div_nonneg (Nat.cast_nonneg _)
  have h1 : (1 : ℚ) ≤ 2 ^ n := by
    exact_mod_cast Nat.one_le_two_pow
  linarith

lemma expectationValue_le_one (n : ℕ) (counts : Counts) (hn : n ≠ 0)
    (ht : 0 < totalShots counts) (hk : ∀ p ∈ counts, p.1.length ≤ n) :
    expectationValue n counts ≤ 1 := by
  rw [expectationValue_eq_div]
  have hT : (0 : ℚ) < ((totalShots counts : ℕ) : ℚ) := by exact_mod_cast ht
  rw [div_le_one hT]
  apply sum_weighted_le_total
  intro p hp
  have hD : (0 : ℚ) < 2 ^ n - 1 := by
    have h2 : (2 : ℚ) ≤ 2 ^ n := by
      have := Nat.one_lt_two_pow_iff.mpr hn
      exact_mod_cast this
    linarith
  exact (div_le_one hD).mpr (bitsToNat_cast_le n p.1 (hk p hp))

lemma executeCircuit_nonneg (n : ℕ) (r : Option Counts) :
    0 ≤ executeCircuit n r := by
  cases r with
  | none => norm_num [executeCircuit]
  | some counts =>
      simp only [executeCircuit]
      split
      · norm_num
      · split
        · norm_num
        · exact expectationValue_nonneg n counts

lemma executeCircuit_le_one (n : ℕ) (r : Option Counts)
    (hk : ∀ c, r = some c → ∀ p ∈ c, p.1.length ≤ n) :
    executeCircuit n r ≤ 1 := by
  cases r with
  | none => norm_num [executeCircuit]
  | some counts =>
      simp only [executeCircuit]
      split
      · norm_num
      · split
        · norm_num
        · rename_i hcond
          push_neg at hcond
          exact expectationValue_le_one n counts hcond.2
            (Nat.pos_of_ne_zero hcond.1) (hk counts rfl)

lemma rmin_le_left (a b : ℚ) : rmin a b ≤ a := by
  unfold rmin
  split
  · exact le_refl a
  · exact le_of_not_le (by assumption)

lemma le_rmax_left (a b : ℚ) : a ≤ rmax a b := by
  unfold rmax
  split
  · assumption
  · exact le_refl a

lemma foldl_min_le (xs : List ℚ) : ∀ x : ℚ, xs.foldl rmin x ≤ x := by
  induction xs with
  | nil => intro x; simp
  | cons a t ih => intro x; exact le_trans (ih (rmin x a)) (rmin_le_left x a)

lemma le_foldl_max (xs : List ℚ) : ∀ x : ℚ, x ≤ xs.foldl rmax x := by
  induction xs with
  | nil => intro x; simp
  | cons a t ih => intro x; exact le_trans (le_rmax_left x a) (ih (rmax x a))

lemma listMin_le_listMax (y : List ℚ) (hy : y ≠ []) : listMin y ≤ listMax y := by
  cases y with
  | nil => exact absurd rfl hy
  | cons a t => exact le_trans (foldl_min_le t a) (le_foldl_max t a)

lemma foldl_nanAdd_none (l : List (Option ℚ)) : l.foldl nanAdd none = none := by
  induction l with
  | nil => rfl
  | cons a t ih =>
      have h1 : nanAdd none a = none := by cases a <;> rfl
      simp [List.foldl_cons, h1, ih]

lemma foldl_nanAdd_some (l : List ℚ) :
    ∀ a : ℚ, ((l.map some).foldl nanAdd (some a)) = some (a + l.sum) := by
  induction l with
  | nil => intro a; simp
  | cons x t ih =>
      intro a
      simp [nanAdd, ih, add_assoc]

lemma foldl_pickMax_decomp (rest : Counts) :
    ∀ p : Bitstring × ℕ,
      ∃ l1 l2, p :: rest = l1 ++ (rest.foldl pickMax p) :: l2 ∧
        (∀ q ∈ l1, q.2 < (rest.foldl pickMax p).2) ∧
        (∀ q ∈ l2, q.2 ≤ (rest.foldl pickMax p).2) := by
  induction rest with
  | nil =>
      intro p
      exact ⟨[], [], rfl, by simp, by simp⟩
  | cons r t ih =>
      intro p
      have hfold : (r :: t).foldl pickMax p = t.foldl pickMax (pickMax p r) := rfl
      by_cases hpr : r.2 > p.2
      · have hpm : pickMax p r = r := by simp [pickMax, hpr]
        obtain ⟨l1, l2, heq, hl1, hl2⟩ := ih (pickMax p r)
        rw [hpm] at heq hl1 hl2
        rw [hfold, hpm]
        have hrb : r.2 ≤ (t.foldl pickMax r).2 := by
          cases l1 with
          | nil =>
              have hhead : r = t.foldl pickMax r := by
                simpa using congrArg (fun l => l.headD r) heq
              rw [← hhead]
          | cons x l1t =>
              have hx : r = x := by
                simpa using congrArg (fun l => l.headD r) heq
              have := hl1 x (by simp)
              rw [← hx] at this
              exact le_of_lt this
        refine ⟨p :: l1, l2, ?_, ?_, hl2⟩
        · rw [List.cons_append, ← heq]
        · intro q hq
          rcases List.mem_cons.mp hq with hq | hq
          · subst hq
            omega
          · exact hl1 q hq
      · have hpm : pickMax p r = p := by simp [pickMax, hpr]
        obtain ⟨l1, l2, heq, hl1, hl2⟩ := ih (pickMax p r)
        rw [hpm] at heq hl1 hl2
        rw [hfold, hpm]
        cases l1 with
        | nil =>
            have hb : p = t.foldl pickMax p := by
              simpa using congrArg (fun l => l.headD p) heq
            have ht2 : t = l2 := by
              simpa using congrArg List.tail heq
            refine ⟨[], r :: l2, ?_, by simp, ?_⟩
            · rw [← hb, ← ht2]
              rfl
            · intro q hq
              rcases List.mem_cons.mp hq with hq | hq
              · subst hq
                rw [← hb]
                omega
              · exact hl2 q hq
        | cons x l1t =>
            have hx : p = x := by
              simpa using congrArg (fun l => l.headD p) heq
            have ht2 : t = l1t ++ (t.foldl pickMax p) :: l2 := by
              simpa using congrArg List.tail heq
            refine ⟨p :: r :: l1t, l2, ?_, ?_, hl2⟩
            · rw [List.cons_append, List.cons_append, ← ht2]
            · intro q hq
              have hpb : p.2 < (t.foldl pickMax p).2 := by
                have := hl1 x (by simp)
                rwa [← hx] at this
              rcases List.mem_cons.mp hq with hq | hq
              · subst hq; exact hpb
              · rcases List.mem_cons.mp hq with hq | hq
                · subst hq; omega
                · exact hl1 q (by simp [hq])

/-! ## Claim theorems -/

/-- C1: the spec says that on a degenerate training set (all targets
identical) `fit` skips optimization and records the constant.  The code
instead divides by zero: the normalized targets are all NaN, the cost
function the optimizer is run on is NaN, and the optimization is not
skipped; `predict` afterwards does return the constant `5.0` for every
row because denormalization multiplies the expectation by
`y_max - y_min = 0`. -/
theorem fit_degenerate_targets_not_skipped
    (optResult : List ℚ) (results : List (Option Counts)) (hr : results ≠ [])
    (rows : List (Option Counts)) :
    fitNormalizedTargets [5, 5] = [none, none] ∧
    costFunction 4 results (fitNormalizedTargets [5, 5]) = none ∧
    predict 4 (fit [5, 5] optResult) rows = Except.ok (rows.map (fun _ => 5)) := by
  have hmin : listMin [5, 5] = 5 := by simp [listMin, rmin]
  have hmax : listMax [5, 5] = 5 := by simp [listMax, rmax]
  have hnorm : fitNormalizedTargets [5, 5] = [none, none] := by
    simp [fitNormalizedTargets, hmin, hmax, normTarget]
  refine ⟨hnorm, ?_, ?_⟩
  · rw [hnorm]
    unfold costFunction
    rw [if_neg (by simpa using hr)]
    cases results with
    | nil => exact absurd rfl hr
    | cons r0 rest =>
        simp only [List.zipWith_cons_cons, Option.map_none', List.foldl_cons]
        have h1 : nanAdd (some (0 : ℚ)) none = none := rfl
        rw [h1, foldl_nanAdd_none]
        rfl
  · simp only [predict, fit, hmin, hmax]
    simp

/-- C2: the spec requires oracle runs to be deterministic for identical
(spec, shots, seed).  `get_quantum_backend` does put `seed_simulator = 42`
into the configuration, but `run_circuit` never forwards it to
`backend.run`, so the configured seed has no influence on the outcome
distribution while the simulator's ambient entropy does: two runs with
identical circuit, shots and configured seed can differ. -/
theorem run_circuit_drops_configured_seed :
    (getQuantumBackend "Simulator" 1024).seedSimulator = 42 ∧
    (∀ (c : CircuitSpec) (s e a b : ℕ),
        runCircuit c ⟨s, 1, a⟩ e = runCircuit c ⟨s, 1, b⟩ e) ∧
    runCircuit ⟨1, [Gate.h 0, Gate.measureAll]⟩ (getQuantumBackend "Simulator" 4) 0
      ≠ runCircuit ⟨1, [Gate.h 0, Gate.measureAll]⟩ (getQuantumBackend "Simulator" 4) 1 := by
  exact ⟨rfl, fun c s e a b => rfl, by decide⟩

/-- C2 witness: the configured seed is 42, yet two configurations that
differ only in the seed produce the same run. -/
theorem run_circuit_drops_configured_seed_witness :
    (getQuantumBackend "Simulator" 1024).seedSimulator = 42 ∧
    runCircuit ⟨1, [Gate.h 0, Gate.measureAll]⟩ ⟨4, 1, 42⟩ 0
      = runCircuit ⟨1, [Gate.h 0, Gate.measureAll]⟩ ⟨4, 1, 99⟩ 0 :=
  ⟨run_circuit_drops_configured_seed.1,
   run_circuit_drops_configured_seed.2.1 ⟨1, [Gate.h 0, Gate.measureAll]⟩ 4 0 42 99⟩

/-- C3 counterexample: an allocator configured with 5 qubits accepts a
3-zone input and succeeds, instead of failing with a dimension-mismatch
error as the claim states. -/
theorem optimize_no_dimension_error_counterexample :
    ([(⟨1000⟩ : Zone), ⟨1000⟩, ⟨1000⟩].length ≠ (5 : ℕ)) ∧
    ∃ r, optimize ⟨5, 2, 128⟩ demoOracle [⟨1000⟩, ⟨1000⟩, ⟨1000⟩]
      = Except.ok r := by
  exact ⟨by decide, _, rfl⟩

/-- C3 amended: `optimize` performs no zone/qubit-count check at all: it
builds the circuit with `len(zone_data)` qubits, ignoring the configured
qubit count entirely, and succeeds for any zone list for which the
backend returns a nonempty distribution. -/
theorem optimize_ignores_configured_qubits
    (cfg : OptimizerSettings) (oracle : CircuitSpec → ℕ → Counts) (zd : List Zone)
    (hne : oracle (createQaoaCircuit cfg.circuitDepth zd.length) cfg.shots ≠ []) :
    (createQaoaCircuit cfg.circuitDepth zd.length).numQubits = zd.length ∧
    (∀ m : ℕ, optimize { cfg with nQubits := m } oracle zd = optimize cfg oracle zd) ∧
    ∃ alloc counts,
      optimize cfg oracle zd
        = Except.ok (alloc, counts, createQaoaCircuit cfg.circuitDepth zd.length) := by
  refine ⟨rfl, fun m => by cases cfg; rfl, ?_⟩
  obtain ⟨p, rest, hcons⟩ := List.exists_cons_of_ne_nil hne
  refine ⟨(zd.zip (rest.foldl pickMax p).1).map
      (fun zb => if zb.2 then zb.1.requirement * (4/5) else 0), p :: rest, ?_⟩
  simp only [optimize, hcons, maxByCount]

/-- C3 amended witness at a concrete mismatched input. -/
theorem optimize_ignores_configured_qubits_witness :
    (createQaoaCircuit 2 3).numQubits = 3 ∧
    (∀ m : ℕ, optimize ⟨m, 2, 128⟩ demoOracle [⟨1000⟩, ⟨1000⟩, ⟨1000⟩]
        = optimize ⟨5, 2, 128⟩ demoOracle [⟨1000⟩, ⟨1000⟩, ⟨1000⟩]) ∧
    ∃ alloc counts,
      optimize ⟨5, 2, 128⟩ demoOracle [⟨1000⟩, ⟨1000⟩, ⟨1000⟩]
        = Except.ok (alloc, counts, createQaoaCircuit 2 3) :=
  optimize_ignores_configured_qubits ⟨5, 2, 128⟩ demoOracle
    [⟨1000⟩, ⟨1000⟩, ⟨1000⟩] (by decide)

/-- C4: the spec's claim that `forecast` takes a crop-stage string cannot
hold: `forecast` has no such parameter and passes the numeric last
feature as `crop_stage`, so its recommendation list is always exactly
the score-tier rule set with no stage addendum; the recommendation
generator itself would append exactly one addendum for a recognized
stage string. -/
theorem forecast_crop_stage_never_applied
    (shots : ℕ) (oracle : CircuitSpec → ℕ → Counts) (features : List ℚ)
    (hf : features.length = 3)
    (ht : totalShots (oracle (createFeatureMapCircuit 3
        (List.zipWith (fun f m => f / m) features [45, 100, 100])) shots) ≠ 0) :
    (∃ score circ counts, forecast shots oracle features
        = Except.ok (score, riskLevel score, tierRecs score, circ, counts)) ∧
    (∀ s q : ℚ, generateRecommendations s (PyVal.num q) = tierRecs s) ∧
    (∀ s : ℚ, generateRecommendations s (PyVal.str "Flowering")
        = tierRecs s
          ++ ["Be cautious with any treatments to protect vital pollinators."]) ∧
    (∀ s : ℚ, (generateRecommendations s (PyVal.str "Germination")).length
        = (tierRecs s).length + 1) := by
  refine ⟨?_, ?_, ?_, ?_⟩
  · unfold forecast
    rw [if_neg (not_not_intro hf), if_neg ht]
    refine ⟨riskValue 3 (oracle (createFeatureMapCircuit 3
          (List.zipWith (fun f m => f / m) features [45, 100, 100])) shots)
        / (totalShots (oracle (createFeatureMapCircuit 3
            (List.zipWith (fun f m => f / m) features [45, 100, 100])) shots) : ℚ),
      createFeatureMapCircuit 3 (List.zipWith (fun f m => f / m) features [45, 100, 100]),
      oracle (createFeatureMapCircuit 3
        (List.zipWith (fun f m => f / m) features [45, 100, 100])) shots, ?_⟩
    simp [generateRecommendations]
  · intro s q
    simp [generateRecommendations]
  · intro s
    show tierRecs s ++ (stageRecs "Flowering").toList
        = tierRecs s ++ ["Be cautious with any treatments to protect vital pollinators."]
    have hst : stageRecs "Flowering"
        = some "Be cautious with any treatments to protect vital pollinators." := rfl
    rw [hst]
    rfl
  · intro s
    show (tierRecs s ++ (stageRecs "Germination").toList).length
        = (tierRecs s).length + 1
    have hst : stageRecs "Germination"
        = some "Protect seedlings with row covers if high risk is detected." := rfl
    rw [hst]
    simp

/-- C4 witness at the scenario input `[28, 75, 20]`. -/
theorem forecast_crop_stage_never_applied_witness :
    (∃ score circ counts, forecast 128 demoOracle [28, 75, 20]
        = Except.ok (score, riskLevel score, tierRecs score, circ, counts)) ∧
    (∀ s q : ℚ, generateRecommendations s (PyVal.num q) = tierRecs s) ∧
    (∀ s : ℚ, generateRecommendations s (PyVal.str "Flowering")
        = tierRecs s
          ++ ["Be cautious with any treatments to protect vital pollinators."]) ∧
    (∀ s : ℚ, (generateRecommendations s (PyVal.str "Germination")).length
        = (tierRecs s).length + 1) :=
  forecast_crop_stage_never_applied 128 demoOracle [28, 75, 20]
    (by decide) (by decide)

/-- C1 witness at the failing input `y = [5, 5]`. -/
theorem fit_degenerate_targets_not_skipped_witness :
    fitNormalizedTargets [5, 5] = [none, none] ∧
    costFunction 4 [none] (fitNormalizedTargets [5, 5]) = none ∧
    predict 4 (fit [5, 5] []) [some [([true], 1)]]
      = Except.ok ([some [([true], 1)]].map (fun _ => 5)) :=
  fit_degenerate_targets_not_skipped [] [none] (by simp) [some [([true], 1)]]

/-- C5: the allocator decodes the winning bitstring positionally — one
allocation per zone in input order, `requirement * 0.8` for a 1 bit and
`0` otherwise — and the winning bitstring is the first-encountered
maximum in iteration order over the distribution. -/
theorem optimize_positional_decode
    (cfg : OptimizerSettings) (oracle : CircuitSpec → ℕ → Counts)
    (zd : List Zone) (counts : Counts)
    (hc : oracle (createQaoaCircuit cfg.circuitDepth zd.length) cfg.shots = counts)
    (hne : counts ≠ [])
    (hkeys : ∀ p ∈ counts, p.1.length = zd.length) :
    ∃ best l1 l2 alloc,
      counts = l1 ++ best :: l2 ∧
      (∀ q ∈ l1, q.2 < best.2) ∧
      (∀ q ∈ l2, q.2 ≤ best.2) ∧
      optimize cfg oracle zd
        = Except.ok (alloc, counts, createQaoaCircuit cfg.circuitDepth zd.length) ∧
      alloc.length = zd.length ∧
      (∀ i (h1 : i < alloc.length) (h2 : i < zd.length) (h3 : i < best.1.length),
        alloc.get ⟨i, h1⟩
          = if best.1.get ⟨i, h3⟩ then (zd.get ⟨i, h2⟩).requirement * (4/5) else 0) ∧
      (∀ a ∈ alloc, a = 0 ∨ ∃ z ∈ zd, a = z.requirement * (4/5)) := by
  obtain ⟨p, rest, hcons⟩ := List.exists_cons_of_ne_nil hne
  obtain ⟨l1, l2, hdec, hl1, hl2⟩ := foldl_pickMax_decomp rest p
  have hbmem : rest.foldl pickMax p ∈ counts := by
    rw [hcons, hdec]
    exact List.mem_append_right _ (List.mem_cons_self _ _)
  have hblen : (rest.foldl pickMax p).1.length = zd.length := hkeys _ hbmem
  refine ⟨rest.foldl pickMax p, l1, l2,
    (zd.zip (rest.foldl pickMax p).1).map
      (fun zb => if zb.2 then zb.1.requirement * (4/5) else 0),
    ?_, hl1, hl2, ?_, ?_, ?_, ?_⟩
  · rw [hcons]
    exact hdec
  · simp only [optimize, hc, hcons, maxByCount]
  · simp [List.length_zip, hblen]
  · intro i h1 h2 h3
    simp [List.get_eq_getElem, List.getElem_map, List.getElem_zip]
  · intro a ha
    obtain ⟨⟨z, bit⟩, hzb, rfl⟩ := List.mem_map.mp ha
    cases bit with
    | false => left; rfl
    | true => right; exact ⟨z, (List.of_mem_zip hzb).1, rfl⟩

/-- C5 witness at a concrete 3-zone input. -/
theorem optimize_positional_decode_witness :
    ∃ best l1 l2 alloc,
      ([(List.replicate 3 true, 128)] : Counts) = l1 ++ best :: l2 ∧
      (∀ q ∈ l1, q.2 < best.2) ∧
      (∀ q ∈ l2, q.2 ≤ best.2) ∧
      optimize ⟨5, 2, 128⟩ demoOracle [⟨1000⟩, ⟨1000⟩, ⟨1000⟩]
        = Except.ok (alloc, [(List.replicate 3 true, 128)], createQaoaCircuit 2 3) ∧
      alloc.length = ([(⟨1000⟩ : Zone), ⟨1000⟩, ⟨1000⟩] : List Zone).length ∧
      (∀ i (h1 : i < alloc.length)
          (h2 : i < ([(⟨1000⟩ : Zone), ⟨1000⟩, ⟨1000⟩] : List Zone).length)
          (h3 : i < best.1.length),
        alloc.get ⟨i, h1⟩
          = if best.1.get ⟨i, h3⟩
            then (([(⟨1000⟩ : Zone), ⟨1000⟩, ⟨1000⟩] : List Zone).get ⟨i, h2⟩).requirement * (4/5)
            else 0) ∧
      (∀ a ∈ alloc, a = 0 ∨
        ∃ z ∈ ([(⟨1000⟩ : Zone), ⟨1000⟩, ⟨1000⟩] : List Zone),
          a = z.requirement * (4/5)) :=
  optimize_positional_decode ⟨5, 2, 128⟩ demoOracle [⟨1000⟩, ⟨1000⟩, ⟨1000⟩]
    [(List.replicate 3 true, 128)] rfl (by decide) (by decide)

/-- C6: the risk level bands are open on the upper side: strictly above
0.65 is high, strictly above 0.35 and at most 0.65 is medium, at most
0.35 is low; a score of exactly 0.65 is medium, not high. -/
theorem risk_level_band_boundaries (s : ℚ) :
    (13/20 < s → riskLevel s = "🔴 High Risk") ∧
    (7/20 < s → s ≤ 13/20 → riskLevel s = "🟡 Medium Risk") ∧
    (s ≤ 7/20 → riskLevel s = "🟢 Low Risk") ∧
    riskLevel (13/20) = "🟡 Medium Risk" := by
  refine ⟨?_, ?_, ?_, ?_⟩
  · intro h
    unfold riskLevel
    rw [if_pos h]
  · intro h1 h2
    unfold riskLevel
    rw [if_neg (not_lt.mpr h2), if_pos h1]
  · intro h
    unfold riskLevel
    rw [if_neg (not_lt.mpr (le_trans h (by norm_num))), if_neg (not_lt.mpr h)]
  · unfold riskLevel
    rw [if_neg (by norm_num), if_pos (by norm_num)]

/-- C6 witness: evaluation at 1 (high band) and at the 0.65 boundary. -/
theorem risk_level_band_boundaries_witness :
    riskLevel 1 = "🔴 High Risk" ∧ riskLevel (13/20) = "🟡 Medium Risk" :=
  ⟨(risk_level_band_boundaries 1).1 (by norm_num),
   (risk_level_band_boundaries (13/20)).2.2.2⟩

/-- C7: the classifier's risk score is the shot-count-weighted average of
the fraction of 1 bits of each sampled outcome (bit density, not the
bitstring's integer value), and it lies in `[0, 1]`. -/
theorem forecast_risk_score_bit_density
    (shots : ℕ) (oracle : CircuitSpec → ℕ → Counts) (features : List ℚ)
    (hf : features.length = 3) (counts : Counts)
    (hc : oracle (createFeatureMapCircuit 3
        (List.zipWith (fun f m => f / m) features [45, 100, 100])) shots = counts)
    (ht : 0 < totalShots counts)
    (hk : ∀ p ∈ counts, p.1.length = 3) :
    ∃ level recs circ,
      forecast shots oracle features
        = Except.ok (specRiskScore counts, level, recs, circ, counts) ∧
      0 ≤ specRiskScore counts ∧ specRiskScore counts ≤ 1 := by
  have hscore : riskValue 3 counts / ((totalShots counts : ℕ) : ℚ)
      = specRiskScore counts := by
    unfold riskValue specRiskScore
    congr 1
    apply congrArg List.sum
    apply List.map_congr_left
    intro p hp
    rw [hk p hp]
  have hT : (0 : ℚ) < ((totalShots counts : ℕ) : ℚ) := by exact_mod_cast ht
  have hnn : 0 ≤ specRiskScore counts := by
    unfold specRiskScore
    apply div_nonneg _ (Nat.cast_nonneg _)
    apply sum_weighted_nonneg
    intro p hp
    exact div_nonneg (Nat.cast_nonneg _) (Nat.cast_nonneg _)
  have hle : specRiskScore counts ≤ 1 := by
    unfold specRiskScore
    rw [div_le_one hT]
    apply sum_weighted_le_total
    intro p hp
    rw [hk p hp]
    have h1 := List.count_le_length true p.1
    rw [hk p hp] at h1
    have h2 : ((p.1.count true : ℕ) : ℚ) ≤ ((3 : ℕ) : ℚ) := by exact_mod_cast h1
    rw [div_le_one (by norm_num : (0 : ℚ) < ((3 : ℕ) : ℚ))]
    exact h2
  refine ⟨riskLevel (specRiskScore counts),
    generateRecommendations (specRiskScore counts) (PyVal.num (features.getLastD 0)),
    createFeatureMapCircuit 3 (List.zipWith (fun f m => f / m) features [45, 100, 100]),
    ?_, hnn, hle⟩
  simp only [forecast]
  rw [if_neg (not_not_intro hf), hc, if_neg ht.ne']
  rw [hscore]

/-- C7 witness at the scenario input. -/
theorem forecast_risk_score_bit_density_witness :
    ∃ level recs circ,
      forecast 128 demoOracle [28, 75, 20]
        = Except.ok (specRiskScore [(List.replicate 3 true, 128)], level, recs, circ,
            [(List.replicate 3 true, 128)]) ∧
      0 ≤ specRiskScore [(List.replicate 3 true, 128)] ∧
      specRiskScore [(List.replicate 3 true, 128)] ≤ 1 :=
  forecast_risk_score_bit_density 128 demoOracle [28, 75, 20] (by decide)
    [(List.replicate 3 true, 128)] rfl (by decide) (by decide)

/-- C8: the expectation estimator equals the shot-count-weighted average
of the outcomes' unsigned binary values normalized by
`2^qubit_count - 1`, and it lies in `[0, 1]`. -/
theorem estimate_normalized_weighted_average
    (n : ℕ) (counts : Counts) (hn : 1 ≤ n) (ht : 0 < totalShots counts)
    (hk : ∀ p ∈ counts, p.1.length = n) :
    executeCircuit n (some counts) = specEstimate n counts ∧
    0 ≤ executeCircuit n (some counts) ∧ executeCircuit n (some counts) ≤ 1 := by
  have hne : counts.isEmpty = false := by
    cases counts with
    | nil => simp [totalShots] at ht
    | cons a t => rfl
  have hcond : ¬(totalShots counts = 0 ∨ n = 0) := by omega
  have heq : executeCircuit n (some counts) = expectationValue n counts := by
    simp only [executeCircuit]
    rw [if_neg (by simp [hne]), if_neg hcond]
  refine ⟨?_, executeCircuit_nonneg n (some counts), ?_⟩
  · rw [heq, expectationValue_eq_specEstimate]
  · apply executeCircuit_le_one
    intro c hcv p hp
    injection hcv with hcv2
    subst hcv2
    exact le_of_eq (hk p hp)

/-- C8 witness on a concrete 2-qubit distribution. -/
theorem estimate_normalized_weighted_average_witness :
    executeCircuit 2 (some [([true, false], 2)]) = specEstimate 2 [([true, false], 2)] ∧
    0 ≤ executeCircuit 2 (some [([true, false], 2)]) ∧
    executeCircuit 2 (some [([true, false], 2)]) ≤ 1 :=
  estimate_normalized_weighted_average 2 [([true, false], 2)] (by decide)
    (by decide) (by decide)

/-- C9: a backend failure during a single evaluation is replaced by the
fixed neutral expectation 0.5, and the cost function (hence the
in-progress fit) still produces a value — the mean squared error with
the substitute used for the failed rows. -/
theorem oracle_failure_neutral_fallback
    (n : ℕ) (results : List (Option Counts)) (ts : List ℚ) (hr : results ≠ []) :
    executeCircuit n none = 1/2 ∧
    costFunction n results (ts.map some)
      = some ((List.zipWith (fun r t => (executeCircuit n r - t) ^ 2) results ts).sum
          / (results.length : ℚ)) := by
  refine ⟨rfl, ?_⟩
  unfold costFunction
  rw [if_neg (by simpa using hr)]
  rw [List.zipWith_map_right]
  have hzip : (List.zipWith
      (fun r (t : ℚ) => Option.map (fun yt => (executeCircuit n r - yt) ^ 2) (some t))
      results ts)
      = (List.zipWith (fun r t => (executeCircuit n r - t) ^ 2) results ts).map some := by
    rw [List.map_zipWith]
    rfl
  rw [hzip, foldl_nanAdd_some]
  simp

/-- C9 witness with a single failed evaluation. -/
theorem oracle_failure_neutral_fallback_witness :
    executeCircuit 4 none = 1/2 ∧
    costFunction 4 [none] ([(0 : ℚ)].map some)
      = some ((List.zipWith (fun r t => (executeCircuit 4 r - t) ^ 2)
            [none] [(0 : ℚ)]).sum
          / (([none] : List (Option Counts)).length : ℚ)) :=
  oracle_failure_neutral_fallback 4 [none] [0] (by simp)

/-- C10: after fit, every prediction lies in `[y_min, y_max]` of the
training targets, and a row whose circuit execution fails predicts
exactly the midpoint of that interval. -/
theorem predict_stays_in_target_range
    (n : ℕ) (y : List ℚ) (hy : y ≠ []) (optResult : List ℚ)
    (results : List (Option Counts))
    (hk : ∀ r ∈ results, ∀ p ∈ r.getD [], (p : Bitstring × ℕ).1.length = n) :
    ∃ ps, predict n (fit y optResult) results = Except.ok ps ∧
      (∀ q ∈ ps, listMin y ≤ q ∧ q ≤ listMax y) ∧
      (∀ i (h1 : i < results.length) (h2 : i < ps.length),
        results.get ⟨i, h1⟩ = none →
          ps.get ⟨i, h2⟩ = (listMin y + listMax y) / 2) := by
  refine ⟨results.map (fun r =>
      executeCircuit n r * (listMax y - listMin y) + listMin y), rfl, ?_, ?_⟩
  · intro q hq
    obtain ⟨r, hr, rfl⟩ := List.mem_map.mp hq
    have hd : 0 ≤ listMax y - listMin y := by
      have := listMin_le_listMax y hy
      linarith
    have he0 : 0 ≤ executeCircuit n r := executeCircuit_nonneg n r
    have he1 : executeCircuit n r ≤ 1 := by
      apply executeCircuit_le_one
      intro c hcv p hp
      apply le_of_eq
      apply hk r hr
      rw [hcv]
      exact hp
    constructor
    · have := mul_nonneg he0 hd
      linarith
    · have := mul_le_of_le_one_left hd he1
      linarith
  · intro i h1 h2 hnone
    simp only [List.get_eq_getElem] at hnone ⊢
    simp only [List.getElem_map]
    rw [hnone]
    show (1 / 2 : ℚ) * (listMax y - listMin y) + listMin y
        = (listMin y + listMax y) / 2
    ring

/-- C10 witness: one failing row and one successful row. -/
theorem predict_stays_in_target_range_witness :
    ∃ ps, predict 1 (fit [1, 3] []) [none, some [([true], 2)]] = Except.ok ps ∧
      (∀ q ∈ ps, listMin [1, 3] ≤ q ∧ q ≤ listMax [1, 3]) ∧
      (∀ i (h1 : i < ([none, some [([true], 2)]] : List (Option Counts)).length)
          (h2 : i < ps.length),
        ([none, some [([true], 2)]] : List (Option Counts)).get ⟨i, h1⟩ = none →
          ps.get ⟨i, h2⟩ = (listMin [1, 3] + listMax [1, 3]) / 2) :=
  predict_stays_in_target_range 1 [1, 3] (by simp) [] [none, some [([true], 2)]]
    (by decide)
